import Mathlib

/-!
Shallow embedding of the streaming batch stitcher of
`RecommenderSystems/pnn/pnn_train_eval.py` (class `PNNDataReader`,
method `get_batches`, and the constructor paths `PNNDataReader.__init__`
and `make_criteo_dataloader`).

A row group is modelled as its projected column list `rglist`
(`rglist = [rgdict[field] for field in self.fields]`, line 142): a list of
columns, each column a list of integers; column 0 is the label column.
`np.stack(features, axis=-1)` on a list of 1-D arrays is modelled by
`np_stack`, which fails (as NumPy raises) on an empty list or on columns of
unequal length, and otherwise returns the stacked rows
(`result[i][j] = features[j][i]`).

The generator `get_batches` is modelled as a function from the finite list
of row groups delivered by the reader to the list of emitted batches,
together with the final tail state and an error flag (`true` when the
generator raised mid-stream; batches emitted before the raise are kept).
-/

namespace PNN

/-- A column array (a 1-D numpy array of the parquet data). -/
abbrev Col := List Int

/-- `num_dense_fields = 13` (source line 84). -/
def num_dense_fields : Nat := 13

/-- `num_sparse_fields = 26` (source line 85). -/
def num_sparse_fields : Nat := 26

/-- `self.num_fields = len(fields)` where
`fields = ["Label"] + I1..I13 + C1..C26` (source lines 111-115). -/
def pnn_num_fields : Nat := 1 + num_dense_fields + num_sparse_fields

/-- One emitted batch: the yielded pair `(label, np.stack(features, axis=-1))`.
`features` holds the stacked rows: `features[i][j]` is element `i` of the
`j`-th stacked column. -/
structure PBatch where
  label : Col
  features : List (List Int)
  deriving Repr, DecidableEq

/-- `np.stack(cols, axis=-1)` for a list of 1-D arrays: raises (`none`) on an
empty list or on arrays of unequal length; otherwise returns the row list
with `row i = [cols[0][i], cols[1][i], ...]`. -/
def np_stack (cols : List Col) : Option (List (List Int)) :=
  match cols with
  | [] => none
  | c :: rest =>
    if rest.all (fun d => d.length = c.length) then
      some ((List.range c.length).map (fun i => (c :: rest).map (fun d => d.getD i 0)))
    else none

/-- The while loop of lines 161-165:

    while (pos + batch_size) <= len(rglist[0]):
        label = rglist[0][pos : pos + batch_size]
        features = rglist[1:][pos: pos + batch_size]
        pos += batch_size
        yield label, np.stack(features, axis=-1)

Note `rglist[1:][pos : pos + batch_size]` slices the *list of feature
columns*, not each column's rows; the embedding reproduces this.
Encoded with a fuel argument: each iteration advances `pos` by
`batch_size >= 1`, so `fuel > len(rglist[0]) - pos` makes the guard, never
the fuel, end the loop (the guard also requires `0 < batchSize`; with
`batch_size = 0` the Python loop would not terminate, which a total model
cannot express). Returns (emitted batches, final `pos`, errored): when
`np.stack` raises, iteration stops with the error flag set. -/
def slice_loop_fuel (batchSize : Nat) (rglist : List Col) :
    Nat → Nat → List PBatch × Nat × Bool
  | _, 0 => ([], 0, false)
  | pos, fuel + 1 =>
    if 0 < batchSize ∧ pos + batchSize ≤ (rglist.headD []).length then
      match np_stack (((rglist.drop 1).drop pos).take batchSize) with
      | none => ([], pos + batchSize, true)
      | some f =>
        (⟨((rglist.headD []).drop pos).take batchSize, f⟩ ::
            (slice_loop_fuel batchSize rglist (pos + batchSize) fuel).1,
          (slice_loop_fuel batchSize rglist (pos + batchSize) fuel).2)
    else ([], pos, false)

/-- The while loop of lines 161-165 started at `pos`, with fuel
`len(rglist[0]) + 1` (always strictly more than the iteration count). -/
def slice_loop (batchSize : Nat) (rglist : List Col) (pos : Nat) :
    List PBatch × Nat × Bool :=
  slice_loop_fuel batchSize rglist pos ((rglist.headD []).length + 1)

/-- Lines 146-151: the tail-completion attempt

    tail = list([np.concatenate((tail[i], rglist[i][0 : (batch_size - len(tail[i]))]))
                 for i in range(self.num_fields)]) -/
def merge_tail (numFields batchSize : Nat) (t : List Col) (rglist : List Col) :
    List Col :=
  (List.range numFields).map
    (fun i => (t.getD i []) ++ ((rglist.getD i []).take (batchSize - (t.getD i []).length)))

/-- Line 168: `tail = [rglist[i][pos:] for i in range(self.num_fields)]`. -/
def save_tail (numFields : Nat) (rglist : List Col) (pos : Nat) : List Col :=
  (List.range numFields).map (fun i => (rglist.getD i []).drop pos)

/-- Lines 161-168 after the while loop has produced `r = (batches, pos,
errored)`: on a raise the generator dies with no live tail; otherwise the
leftover rows `rglist[i][pos:]` become the tail when `pos != len(rglist[0])`
(lines 167-168). -/
def finish_rg (numFields : Nat) (rglist : List Col)
    (r : List PBatch × Nat × Bool) : List PBatch × Option (List Col) × Bool :=
  if r.2.2 then (r.1, none, true)
  else
    (r.1,
      if r.2.1 ≠ (rglist.headD []).length then some (save_tail numFields rglist r.2.1)
      else none,
      false)

/-- The body of the `for rg in reader` loop (lines 143-168) applied to one
row group, given the incoming tail state. Returns (batches emitted for this
row group, tail state afterwards, errored). With a tail (lines 144-159):
`pos = batch_size - len(tail[0])` (line 145), the merged tail is emitted when
its column 0 reached `batch_size` (the label is `tail[0]`, `tail` is set to
`None` at line 155 before the `yield`, so on a raise inside `np.stack` the
generator dies with no live tail), otherwise `pos = 0; continue` retains the
merged tail and skips the while loop. Then the while loop runs from `pos`
and the leftover rows are saved (`finish_rg`). -/
def process_rg (numFields batchSize : Nat) (tail : Option (List Col))
    (rglist : List Col) : List PBatch × Option (List Col) × Bool :=
  match tail with
  | none => finish_rg numFields rglist (slice_loop batchSize rglist 0)
  | some t =>
    if ((merge_tail numFields batchSize t rglist).headD []).length = batchSize then
      match np_stack ((merge_tail numFields batchSize t rglist).drop 1) with
      | none => ([], none, true)
      | some f =>
        ((⟨(merge_tail numFields batchSize t rglist).headD [], f⟩ ::
            (finish_rg numFields rglist
              (slice_loop batchSize rglist (batchSize - (t.headD []).length))).1),
          (finish_rg numFields rglist
            (slice_loop batchSize rglist (batchSize - (t.headD []).length))).2)
    else ([], some (merge_tail numFields batchSize t rglist), false)

/-- The whole `for rg in reader` loop, threading the tail state through the
row groups; stops at the first raised exception keeping the batches already
yielded. -/
def run_batches (numFields batchSize : Nat) :
    List (List Col) → Option (List Col) → List PBatch × Option (List Col) × Bool
  | [], tail => ([], tail, false)
  | rg :: rest, tail =>
    if (process_rg numFields batchSize tail rg).2.2 then
      process_rg numFields batchSize tail rg
    else
      ((process_rg numFields batchSize tail rg).1 ++
          (run_batches numFields batchSize rest
            (process_rg numFields batchSize tail rg).2.1).1,
        (run_batches numFields batchSize rest
          (process_rg numFields batchSize tail rg).2.1).2)

/-- `get_batches` (lines 134-168): starts with `tail = None` (line 138) and
processes the row groups the reader yields, in order. When the reader is
exhausted the generator simply returns, silently dropping any leftover
tail. -/
def get_batches (numFields batchSize : Nat) (rgs : List (List Col)) :
    List PBatch × Option (List Col) × Bool :=
  run_batches numFields batchSize rgs none

/-- A well-formed row group: `numFields` columns, all of equal length. -/
def wf_rg (numFields : Nat) (rglist : List Col) : Prop :=
  rglist.length = numFields ∧ ∀ c ∈ rglist, c.length = (rglist.headD []).length

/-- The tail-buffer invariant: no tail, or `numFields` columns of one common
length strictly below `batchSize`. -/
def tail_inv (numFields batchSize : Nat) : Option (List Col) → Prop
  | none => True
  | some t =>
    t.length = numFields ∧ (∀ c ∈ t, c.length = (t.headD []).length) ∧
      (t.headD []).length < batchSize

instance (numFields : Nat) (rglist : List Col) : Decidable (wf_rg numFields rglist) := by
  unfold wf_rg; infer_instance

instance (numFields batchSize : Nat) (t : Option (List Col)) :
    Decidable (tail_inv numFields batchSize t) := by
  cases t <;> (unfold tail_inv; infer_instance)

/-- The configuration state `PNNDataReader.__init__` stores (lines 93-115). -/
structure PNNDataReaderCfg where
  batch_size : Nat
  num_epochs : Option Nat
  shuffle_row_groups : Bool
  shard_seed : Nat
  shard_count : Nat
  cur_shard : Nat
  num_fields : Nat
  deriving Repr, DecidableEq

/-- `PNNDataReader.__init__` (lines 93-115): stores its arguments and builds
the field list; it performs no validation of any kind, so construction never
raises (`Except.error` would model a Python exception). -/
def pnn_data_reader_init (batch_size : Nat) (num_epochs : Option Nat)
    (shuffle_row_groups : Bool) (shard_seed shard_count cur_shard : Nat) :
    Except String PNNDataReaderCfg :=
  Except.ok
    ⟨batch_size, num_epochs, shuffle_row_groups, shard_seed, shard_count,
      cur_shard, pnn_num_fields⟩

/-- `make_criteo_dataloader` (lines 171-189):
`batch_size_per_proc = batch_size // world_size` (floor division, line 179)
with no divisibility check, then `PNNDataReader(files, batch_size_per_proc,
None, shuffle_row_groups=shuffle, shard_seed=1234, shard_count=world_size,
cur_shard=rank)`. -/
def make_criteo_dataloader (batch_size world_size rank : Nat) (shuffle : Bool) :
    Except String PNNDataReaderCfg :=
  pnn_data_reader_init (batch_size / world_size) none shuffle 1234 world_size rank

/-- Concrete row group with `pnn_num_fields` = 40 columns and `rows` rows:
label column `[1, 2, ..., rows]`, feature column `j` (0-based) holding
`100 * (j + 1) + i` at row `i`. Distinct values in every cell make
cross-row and cross-column mix-ups visible. -/
def cex_rg (rows : Nat) : List Col :=
  ((List.range rows).map (fun i => (i + 1 : Int))) ::
    (List.range (pnn_num_fields - 1)).map
      (fun j => (List.range rows).map (fun i => (100 * (j + 1) + i : Int)))

/- ## Helper lemmas about the slicing loop -/

theorem slice_loop_fuel_label_len (batchSize : Nat) (rglist : List Col) :
    ∀ fuel pos b, b ∈ (slice_loop_fuel batchSize rglist pos fuel).1 →
      b.label.length = batchSize := by
  intro fuel
  induction fuel with
  | zero => intro pos b hb; simp [slice_loop_fuel] at hb
  | succ n ih =>
    intro pos b hb
    rw [slice_loop_fuel] at hb
    by_cases h : 0 < batchSize ∧ pos + batchSize ≤ (rglist.headD []).length
    · rw [if_pos h] at hb
      cases hnp : np_stack (((rglist.drop 1).drop pos).take batchSize) with
      | none => rw [hnp] at hb; simp at hb
      | some f =>
        rw [hnp] at hb
        simp only [List.mem_cons] at hb
        rcases hb with hb | hb
        · subst hb
          simp only [List.length_take, List.length_drop]
          omega
        · exact ih _ _ hb
    · rw [if_neg h] at hb; simp at hb

theorem slice_loop_fuel_pos (batchSize : Nat) (rglist : List Col)
    (hbs : 0 < batchSize) :
    ∀ fuel pos, (rglist.headD []).length < pos + fuel →
      pos ≤ (rglist.headD []).length →
      (slice_loop_fuel batchSize rglist pos fuel).2.1 ≤ (rglist.headD []).length ∧
        ((slice_loop_fuel batchSize rglist pos fuel).2.2 = false →
          (rglist.headD []).length <
            (slice_loop_fuel batchSize rglist pos fuel).2.1 + batchSize) := by
  intro fuel
  induction fuel with
  | zero => intro pos hfu hpos; omega
  | succ n ih =>
    intro pos hfu hpos
    rw [slice_loop_fuel]
    by_cases h : 0 < batchSize ∧ pos + batchSize ≤ (rglist.headD []).length
    · rw [if_pos h]
      cases hnp : np_stack (((rglist.drop 1).drop pos).take batchSize) with
      | none => exact ⟨h.2, by simp⟩
      | some f =>
        have := ih (pos + batchSize) (by omega) h.2
        exact this
    · rw [if_neg h]
      have hc : ¬ pos + batchSize ≤ (rglist.headD []).length := fun hc => h ⟨hbs, hc⟩
      refine ⟨hpos, fun _ => ?_⟩
      show (rglist.headD []).length < pos + batchSize
      omega

theorem slice_loop_pos (batchSize : Nat) (rglist : List Col)
    (hbs : 0 < batchSize) (pos : Nat) (hpos : pos ≤ (rglist.headD []).length) :
    (slice_loop batchSize rglist pos).2.1 ≤ (rglist.headD []).length ∧
      ((slice_loop batchSize rglist pos).2.2 = false →
        (rglist.headD []).length <
          (slice_loop batchSize rglist pos).2.1 + batchSize) :=
  slice_loop_fuel_pos batchSize rglist hbs _ pos (by omega) hpos

theorem finish_rg_fst (numFields : Nat) (rglist : List Col)
    (r : List PBatch × Nat × Bool) : (finish_rg numFields rglist r).1 = r.1 := by
  unfold finish_rg
  split <;> rfl

theorem process_rg_label_len (numFields batchSize : Nat)
    (tail : Option (List Col)) (rglist : List Col) (b : PBatch)
    (hb : b ∈ (process_rg numFields batchSize tail rglist).1) :
    b.label.length = batchSize := by
  cases tail with
  | none =>
    rw [process_rg, finish_rg_fst] at hb
    exact slice_loop_fuel_label_len batchSize rglist _ 0 b hb
  | some t =>
    rw [process_rg] at hb
    by_cases h :
        ((merge_tail numFields batchSize t rglist).headD []).length = batchSize
    · rw [if_pos h] at hb
      cases hnp : np_stack ((merge_tail numFields batchSize t rglist).drop 1) with
      | none => rw [hnp] at hb; simp at hb
      | some f =>
        rw [hnp] at hb
        simp only [List.mem_cons] at hb
        rcases hb with hb | hb
        · subst hb; exact h
        · rw [finish_rg_fst] at hb
          exact slice_loop_fuel_label_len batchSize rglist _ _ b hb
    · rw [if_neg h] at hb
      simp at hb

theorem run_batches_label_len (numFields batchSize : Nat) :
    ∀ (rgs : List (List Col)) (tail : Option (List Col)) (b : PBatch),
      b ∈ (run_batches numFields batchSize rgs tail).1 →
        b.label.length = batchSize := by
  intro rgs
  induction rgs with
  | nil => intro tail b hb; simp [run_batches] at hb
  | cons rg rest ih =>
    intro tail b hb
    rw [run_batches] at hb
    by_cases he : (process_rg numFields batchSize tail rg).2.2
    · rw [if_pos he] at hb
      exact process_rg_label_len numFields batchSize tail rg b hb
    · rw [if_neg he] at hb
      simp only [List.mem_append] at hb
      rcases hb with hb | hb
      · exact process_rg_label_len numFields batchSize tail rg b hb
      · exact ih _ b hb

theorem headD_range_map (n : Nat) (f : Nat → Col) (d : Col) :
    ((List.range (n + 1)).map f).headD d = f 0 := by
  rw [List.range_succ_eq_map]
  rfl

theorem cols_getD_len (numFields : Nat) (l : List Col)
    (hl : l.length = numFields) (hc : ∀ c ∈ l, c.length = (l.headD []).length)
    (i : Nat) (hi : i < numFields) :
    (l.getD i []).length = (l.headD []).length := by
  have hil : i < l.length := by omega
  rw [List.getD_eq_getElem l [] hil]
  exact hc _ (List.getElem_mem hil)

theorem merge_tail_col_len (numFields batchSize : Nat) (t rglist : List Col)
    (htl : t.length = numFields)
    (htc : ∀ c ∈ t, c.length = (t.headD []).length)
    (hwf : wf_rg numFields rglist) (i : Nat) (hi : i < numFields) :
    ((t.getD i []) ++
        ((rglist.getD i []).take (batchSize - (t.getD i []).length))).length =
      (t.headD []).length +
        min (batchSize - (t.headD []).length) (rglist.headD []).length := by
  have h1 : (t.getD i []).length = (t.headD []).length :=
    cols_getD_len numFields t htl htc i hi
  have h2 : (rglist.getD i []).length = (rglist.headD []).length :=
    cols_getD_len numFields rglist hwf.1 hwf.2 i hi
  rw [List.length_append, List.length_take, h1, h2]

theorem save_tail_inv (numFields batchSize : Nat) (rglist : List Col) (p : Nat)
    (hwf : wf_rg numFields rglist) (hbs : 0 < batchSize)
    (hlt : (rglist.headD []).length < p + batchSize) :
    tail_inv numFields batchSize (some (save_tail numFields rglist p)) := by
  refine ⟨by simp [save_tail], ?_, ?_⟩
  · intro c hc
    simp only [save_tail, List.mem_map, List.mem_range] at hc
    obtain ⟨i, hi, rfl⟩ := hc
    cases numFields with
    | zero => omega
    | succ n =>
      rw [save_tail, headD_range_map]
      simp only [List.length_drop]
      rw [cols_getD_len (n + 1) rglist hwf.1 hwf.2 i hi,
        cols_getD_len (n + 1) rglist hwf.1 hwf.2 0 (Nat.succ_pos n)]
  · cases numFields with
    | zero => simpa [save_tail] using hbs
    | succ n =>
      rw [save_tail, headD_range_map]
      simp only [List.length_drop]
      rw [cols_getD_len (n + 1) rglist hwf.1 hwf.2 0 (Nat.succ_pos n)]
      omega

theorem finish_rg_inv (numFields batchSize : Nat) (rglist : List Col)
    (hbs : 0 < batchSize) (hwf : wf_rg numFields rglist) (pos : Nat)
    (hpos : pos ≤ (rglist.headD []).length) :
    tail_inv numFields batchSize
      (finish_rg numFields rglist (slice_loop batchSize rglist pos)).2.1 := by
  unfold finish_rg
  by_cases he : (slice_loop batchSize rglist pos).2.2
  · rw [if_pos he]; trivial
  · rw [if_neg he]
    by_cases hne : (slice_loop batchSize rglist pos).2.1 ≠ (rglist.headD []).length
    · have h := slice_loop_pos batchSize rglist hbs pos hpos
      have hfalse : (slice_loop batchSize rglist pos).2.2 = false := by
        cases hb : (slice_loop batchSize rglist pos).2.2
        · rfl
        · exact absurd hb he
      simp only [if_pos hne]
      exact save_tail_inv numFields batchSize rglist _ hwf hbs (h.2 hfalse)
    · simp only [if_neg hne]; trivial

theorem process_rg_inv (numFields batchSize : Nat) (tail : Option (List Col))
    (rglist : List Col) (hbs : 0 < batchSize)
    (ht : tail_inv numFields batchSize tail) (hwf : wf_rg numFields rglist) :
    tail_inv numFields batchSize
      (process_rg numFields batchSize tail rglist).2.1 := by
  cases tail with
  | none => exact finish_rg_inv numFields batchSize rglist hbs hwf 0 (Nat.zero_le _)
  | some t =>
    obtain ⟨htl, htc, htlt⟩ := ht
    rw [process_rg]
    by_cases hcomp :
        ((merge_tail numFields batchSize t rglist).headD []).length = batchSize
    · rw [if_pos hcomp]
      cases hnp : np_stack ((merge_tail numFields batchSize t rglist).drop 1) with
      | none => trivial
      | some f =>
        have hpos0 :
            batchSize - (t.headD []).length ≤ (rglist.headD []).length := by
          cases numFields with
          | zero =>
            exfalso
            simp only [merge_tail, List.range_zero, List.map_nil, List.headD_nil,
              List.length_nil] at hcomp
            omega
          | succ n =>
            rw [merge_tail, headD_range_map,
              merge_tail_col_len (n + 1) batchSize t rglist htl htc hwf 0
                (Nat.succ_pos n)] at hcomp
            omega
        exact finish_rg_inv numFields batchSize rglist hbs hwf _ hpos0
    · rw [if_neg hcomp]
      refine ⟨by simp [merge_tail], ?_, ?_⟩
      · intro c hc
        simp only [merge_tail, List.mem_map, List.mem_range] at hc
        obtain ⟨i, hi, rfl⟩ := hc
        cases numFields with
        | zero => omega
        | succ n =>
          rw [merge_tail, headD_range_map,
            merge_tail_col_len (n + 1) batchSize t rglist htl htc hwf i hi,
            merge_tail_col_len (n + 1) batchSize t rglist htl htc hwf 0
              (Nat.succ_pos n)]
      · cases numFields with
        | zero => simpa [merge_tail] using hbs
        | succ n =>
          rw [merge_tail, headD_range_map,
            merge_tail_col_len (n + 1) batchSize t rglist htl htc hwf 0
              (Nat.succ_pos n)]
          rw [merge_tail, headD_range_map,
            merge_tail_col_len (n + 1) batchSize t rglist htl htc hwf 0
              (Nat.succ_pos n)] at hcomp
          omega

theorem run_batches_inv (numFields batchSize : Nat) (hbs : 0 < batchSize) :
    ∀ (rgs : List (List Col)) (tail : Option (List Col)),
      tail_inv numFields batchSize tail → (∀ rg ∈ rgs, wf_rg numFields rg) →
        tail_inv numFields batchSize
          (run_batches numFields batchSize rgs tail).2.1 := by
  intro rgs
  induction rgs with
  | nil => intro tail ht hwf; simpa [run_batches] using ht
  | cons rg rest ih =>
    intro tail ht hwf
    rw [run_batches]
    have h1 := process_rg_inv numFields batchSize tail rg hbs ht (hwf rg (by simp))
    by_cases he : (process_rg numFields batchSize tail rg).2.2
    · rw [if_pos he]; exact h1
    · rw [if_neg he]
      exact ih _ h1 (fun r hr => hwf r (by simp [hr]))

/- ## The claims -/

/-- C1: the claim states that for well-formed row groups whose total row
count is an exact multiple of `batch_size`, `get_batches` emits
`total_rows / batch_size` batches, each with a feature array of
`batch_size` rows, and the batches concatenate back to the input
column-for-column. The code violates this: line 163
(`features = rglist[1:][pos : pos + batch_size]`) slices the list of
feature columns instead of each column's rows. At `batch_size = 2` with one
well-formed 40-column row group of 4 rows (total rows `4 = 2 * 2`), both
emitted batches carry a feature array of 4 rows (two whole columns stacked),
not 2, so neither the per-batch size nor the concatenation property holds. -/
theorem get_batches_feature_rows_bug :
    wf_rg pnn_num_fields (cex_rg 4) ∧
      (get_batches pnn_num_fields 2 [cex_rg 4]).1.map
        (fun b => b.features.length) = [4, 4] ∧ (4 : Nat) ≠ 2 := by
  decide

/-- C2: the claim states that each main-loop batch takes the `batch_size`
rows at `[pos, pos + batch_size)` of every feature column, stacked into a
`[batch_size, num_feature_columns]` array. The code instead slices the list
of feature columns (line 163): at `batch_size = 2` with one well-formed
40-column row group of 2 rows, the sole emitted batch's feature rows have 2
entries each (only 2 of the 39 feature columns survive), not 39. -/
theorem get_batches_feature_cols_bug :
    wf_rg pnn_num_fields (cex_rg 2) ∧
      (get_batches pnn_num_fields 2 [cex_rg 2]).1.map
        (fun b => b.features.map List.length) = [[2, 2]] ∧
      pnn_num_fields - 1 = 39 := by
  decide

/-- C3: the claim states that row `i` of an emitted label array and row `i`
of the emitted feature array originate from the same input row. In
`cex_rg 4` the label column is `[1, 2, 3, 4]` and feature column `j` holds
`100 * (j + 1) + i` at row `i`. At `batch_size = 2` the second emitted batch
has label `[3, 4]` (input rows 2 and 3) but its feature row 0 is
`[300, 400]`: the row-0 values of feature columns 2 and 3 (line 163 slices
the column list by `pos`), i.e. values of input row 0 — the pairing is
broken. -/
theorem get_batches_row_pairing_bug :
    wf_rg pnn_num_fields (cex_rg 4) ∧
      (get_batches pnn_num_fields 2 [cex_rg 4]).1.getD 1 ⟨[], []⟩ =
        ⟨[3, 4], [[300, 400], [301, 401], [302, 402], [303, 403]]⟩ := by
  decide

/-- C7: the claim states that a single well-formed row group of exactly
`batch_size` rows (no pre-existing tail) yields exactly one batch holding
all its rows with features of shape `[batch_size, num_feature_columns]`,
and no tail remains. The batch count and the absence of a tail hold, but
through the line-163 bug the feature array is `2 x 2` (two whole feature
columns), not `2 x 39`, at `batch_size = 2` with a 40-column 2-row group. -/
theorem get_batches_single_group_bug :
    wf_rg pnn_num_fields (cex_rg 2) ∧
      (get_batches pnn_num_fields 2 [cex_rg 2]).1.length = 1 ∧
      (get_batches pnn_num_fields 2 [cex_rg 2]).2.1 = none ∧
      (get_batches pnn_num_fields 2 [cex_rg 2]).1.map
        (fun b => b.features.map List.length) ≠ [List.replicate 2 39] := by
  decide

/-- C6 (counterexample): the claim states that construction raises when
`batch_size % world_size != 0`. With `batch_size = 5`, `world_size = 2`
(`5 % 2 = 1`), `make_criteo_dataloader` performs no divisibility check and
returns a reader configured with `batch_size_per_proc = 5 // 2 = 2`. -/
theorem make_criteo_dataloader_accepts_indivisible :
    (5 : Nat) % 2 ≠ 0 ∧
      make_criteo_dataloader 5 2 0 true =
        Except.ok ⟨2, none, true, 1234, 2, 0, pnn_num_fields⟩ :=
  ⟨by decide, rfl⟩

/-- C6 (amended): for every global `batch_size` and `world_size`,
construction raises no error: `make_criteo_dataloader` silently floors
(`batch_size_per_proc = batch_size // world_size`, line 179) and
`PNNDataReader.__init__` performs no validation either. -/
theorem make_criteo_dataloader_silent_floor (batch_size world_size rank : Nat)
    (shuffle : Bool) :
    make_criteo_dataloader batch_size world_size rank shuffle =
      Except.ok
        ⟨batch_size / world_size, none, shuffle, 1234, world_size, rank,
          pnn_num_fields⟩ :=
  rfl

/-- C8: `get_batches` is deterministic — two runs over the same fixed
row-group sequence produce identical outputs (batch list, final tail and
error state). The embedding is a pure function of the row-group sequence,
so equal inputs give equal outputs. -/
theorem get_batches_deterministic (numFields batchSize : Nat)
    (rgs1 rgs2 : List (List Col)) (h : rgs1 = rgs2) :
    get_batches numFields batchSize rgs1 = get_batches numFields batchSize rgs2 := by
  rw [h]

theorem get_batches_deterministic_witness :
    get_batches 3 4 [[[1, 2, 3, 4, 5, 6], [11, 12, 13, 14, 15, 16],
        [21, 22, 23, 24, 25, 26]]] =
      get_batches 3 4 [[[1, 2, 3, 4, 5, 6], [11, 12, 13, 14, 15, 16],
        [21, 22, 23, 24, 25, 26]]] :=
  get_batches_deterministic 3 4 _ _ rfl

/-- C9: on the empty row-group stream `get_batches` terminates normally
with zero batches and no error (`for rg in reader` never runs its body). -/
theorem get_batches_empty_stream (numFields batchSize : Nat) :
    (get_batches numFields batchSize []).1 = [] ∧
      (get_batches numFields batchSize []).2.2 = false :=
  ⟨rfl, rfl⟩

/-- C10: every batch emitted by `get_batches` on well-formed row groups —
via the tail-completion path (guarded by `len(tail[0]) == batch_size`,
line 152) as well as via the main slicing loop (guarded by
`pos + batch_size <= len(rglist[0])`, line 161) — has a label of exactly
`batch_size` elements. -/
theorem get_batches_label_len (numFields batchSize : Nat)
    (rgs : List (List Col)) (hbs : 0 < batchSize)
    (hwf : ∀ rg ∈ rgs, wf_rg numFields rg) (b : PBatch)
    (hb : b ∈ (get_batches numFields batchSize rgs).1) :
    b.label.length = batchSize :=
  run_batches_label_len numFields batchSize rgs none b hb

/-- Both emission paths are exercised: the first batch below is completed
from a 1-row tail, the second comes from the slicing loop. -/
theorem get_batches_label_len_witness :
    ((get_batches 3 2 [[[1], [10], [20]],
        [[2, 3, 4], [11, 12, 13], [21, 22, 23]]]).1.headD ⟨[], []⟩).label.length = 2 :=
  get_batches_label_len 3 2
    [[[1], [10], [20]], [[2, 3, 4], [11, 12, 13], [21, 22, 23]]]
    (by decide) (by decide) _ (by decide)

/-- C4: when a tail exists (all columns of one length `len(tail[0])`) and
the incoming well-formed row group is too short to complete it
(`len(tail[0]) + len(rg) < batch_size`), the loop body emits no batch and
retains, as the new tail, each old tail column followed by the whole
corresponding row-group column (the slice
`rglist[i][0 : batch_size - len(tail[i])]` takes the entire column), so no
row is lost; no error is raised (`pos = 0; continue` skips the rest of the
body). -/
theorem process_rg_short_tail (numFields batchSize : Nat) (t rglist : List Col)
    (htl : t.length = numFields)
    (htc : ∀ c ∈ t, c.length = (t.headD []).length)
    (hwf : wf_rg numFields rglist)
    (hshort : (t.headD []).length + (rglist.headD []).length < batchSize) :
    process_rg numFields batchSize (some t) rglist =
      ([], some (List.zipWith (· ++ ·) t rglist), false) := by
  have hmt : merge_tail numFields batchSize t rglist =
      List.zipWith (· ++ ·) t rglist := by
    apply List.ext_getElem
    · simp [merge_tail, List.length_zipWith, htl, hwf.1]
    · intro i h1 h2
      have hi : i < numFields := by simpa [merge_tail] using h1
      have hti : i < t.length := by omega
      have hri : i < rglist.length := by
        have := hwf.1
        omega
      simp only [merge_tail, List.getElem_map, List.getElem_range,
        List.getElem_zipWith]
      rw [List.getD_eq_getElem t [] hti, List.getD_eq_getElem rglist [] hri]
      have h3 : List.length t[i] = (t.headD []).length :=
        htc _ (List.getElem_mem hti)
      have h4 : List.length rglist[i] = (rglist.headD []).length :=
        hwf.2 _ (List.getElem_mem hri)
      rw [h3]
      rw [List.take_of_length_le (by omega)]
  have hne : ((merge_tail numFields batchSize t rglist).headD []).length ≠
      batchSize := by
    rw [hmt]
    cases t with
    | nil =>
      simp only [List.zipWith_nil_left, List.headD_nil, List.length_nil]
      simp only [List.headD_nil, List.length_nil] at hshort
      omega
    | cons t0 ts =>
      cases rglist with
      | nil =>
        simp only [List.zipWith_nil_right, List.headD_nil, List.length_nil]
        simp only [List.headD_nil, List.length_nil] at hshort
        omega
      | cons r0 rs =>
        simp only [List.zipWith_cons_cons, List.headD_cons, List.length_append]
        simp only [List.headD_cons] at hshort
        omega
  rw [process_rg, if_neg hne, hmt]

/-- C4 witness: a 1-row tail plus a 1-row group with `batch_size = 4`. -/
theorem process_rg_short_tail_witness :
    process_rg 3 4 (some [[1], [10], [20]]) [[2], [11], [21]] =
      ([], some (List.zipWith (· ++ ·) [[1], [10], [20]] [[2], [11], [21]]),
        false) :=
  process_rg_short_tail 3 4 [[1], [10], [20]] [[2], [11], [21]]
    (by decide) (by decide) (by decide) (by decide)

/-- C5: starting from no tail, after any number `k` of well-formed row
groups the tail state satisfies the invariant: it is absent, or all its
columns share one length that is strictly below `batch_size`. (At most one
tail exists at any time by construction — the state is a single `Option` —
and at every `yield` the Python variable `tail` is `None`: it is cleared at
line 155 before the tail-path `yield`, and the slicing loop never touches
it, so the states at the loop-backs, captured here as the state after each
prefix of the row-group stream, are the only nontrivial ones.) -/
theorem get_batches_tail_invariant (numFields batchSize : Nat)
    (rgs : List (List Col)) (hbs : 0 < batchSize)
    (hwf : ∀ rg ∈ rgs, wf_rg numFields rg) (k : Nat) :
    tail_inv numFields batchSize
      (get_batches numFields batchSize (rgs.take k)).2.1 :=
  run_batches_inv numFields batchSize hbs (rgs.take k) none trivial
    (fun rg hr => hwf rg (List.take_subset k rgs hr))

/-- C5 witness: the spec §8 scenario (`batch_size = 4`, a 6-row group then
a 5-row group) ends with a 3-row tail, which satisfies the invariant. -/
theorem get_batches_tail_invariant_witness :
    tail_inv 3 4 (get_batches 3 4
      ([[[1, 2, 3, 4, 5, 6], [11, 12, 13, 14, 15, 16], [21, 22, 23, 24, 25, 26]],
        [[7, 8, 9, 10, 11], [17, 18, 19, 20, 21], [27, 28, 29, 30, 31]]].take 2)).2.1 :=
  get_batches_tail_invariant 3 4
    [[[1, 2, 3, 4, 5, 6], [11, 12, 13, 14, 15, 16], [21, 22, 23, 24, 25, 26]],
      [[7, 8, 9, 10, 11], [17, 18, 19, 20, 21], [27, 28, 29, 30, 31]]]
    (by decide) (by decide) 2

end PNN
